import Mathlib

/-!
Shallow embedding of `hacking/module_formatter.py` (Ansible documentation
generator) and proofs about the claims on its behaviour.

The script is Python 2.  Strings are modelled as Lean `String` / `List Char`;
the regex substitutions `re.sub` over the five inline-markup patterns
`I\(([^)]+)\)`, `B\(...\)`, `M\(...\)`, `U\(...\)`, `C\(...\)` are modelled by
an explicit left-to-right scan (`subAux` below) that reproduces `re.sub`'s
leftmost, non-overlapping matching discipline; the capture group `[^)]+` is
the maximal (equivalently: up to the first `)`) nonempty run of characters
other than `)` followed by `)`.
-/

namespace ModuleFormatter

/-! ### Python `str.split(sep)` for a single-character separator -/

/-- Python's `s.split(sep)` for a one-character separator: `""` splits to
`[""]`, and every occurrence of `sep` starts a new segment. -/
def splitOnChar (sep : Char) : List Char → List (List Char)
  | [] => [[]]
  | c :: cs =>
    if c = sep then [] :: splitOnChar sep cs
    else
      match splitOnChar sep cs with
      | [] => [[c]]
      | seg :: segs => (c :: seg) :: segs

theorem splitOnChar_ne_nil (sep : Char) (l : List Char) : splitOnChar sep l ≠ [] := by
  induction l with
  | nil => simp [splitOnChar]
  | cons c cs ih =>
    simp only [splitOnChar]
    split
    · simp
    · split
      · simp
      · simp

/-- Splitting a string with no separator occurrence yields the single segment. -/
theorem splitOnChar_no_sep (sep : Char) (l : List Char) (h : sep ∉ l) :
    splitOnChar sep l = [l] := by
  induction l with
  | nil => rfl
  | cons c cs ih =>
    have hc : c ≠ sep := by intro hc; exact h (hc ▸ List.mem_cons_self c cs)
    have hcs : sep ∉ cs := fun hm => h (List.mem_cons_of_mem c hm)
    simp only [splitOnChar, if_neg hc, ih hcs]

/-- The key algebraic fact mirroring Python's split:
`(a + sep + b).split(sep) = a.split(sep) + b.split(sep)`. -/
theorem splitOnChar_append (sep : Char) (a b : List Char) :
    splitOnChar sep (a ++ sep :: b) = splitOnChar sep a ++ splitOnChar sep b := by
  induction a with
  | nil => simp [splitOnChar]
  | cons c a' ih =>
    by_cases hc : c = sep
    · subst hc
      simp [List.cons_append, splitOnChar, ih]
    · rcases h' : splitOnChar sep a' with _ | ⟨seg, segs⟩
      · exact absurd h' (splitOnChar_ne_nil sep a')
      · have hab : splitOnChar sep (a' ++ sep :: b) = seg :: (segs ++ splitOnChar sep b) := by
          rw [ih, h']; simp
        simp only [List.cons_append, splitOnChar, if_neg hc, h']
        rw [show a'.append (sep :: b) = a' ++ sep :: b from rfl, hab]

/-! ### The regex substitution engine

`re.sub` for a pattern of the shape `m\(([^)]+)\)` (with `m` a literal marker
letter): scan left to right; at each position try to match the pattern; on a
match, emit the replacement (a function of the capture) and resume after the
match; otherwise emit the character and move one position right. -/

/-- Match `([^)]+)\)` at the head of the input: the capture is the maximal
nonempty run of non-`)` characters, which must be followed by `)`.  Returns
the capture and the remainder after the closing parenthesis. -/
def readCapture : List Char → Option (List Char × List Char)
  | [] => none
  | c :: cs =>
    if c = ')' then none
    else
      match cs with
      | ')' :: rest => some ([c], rest)
      | _ => (readCapture cs).map (fun pr => (c :: pr.1, pr.2))

/-- One `re.sub` pass for pattern `m\(([^)]+)\)` with replacement template
`repl` applied to the capture.  `fuel` bounds the number of scan steps; the
wrapper `reSub` supplies `fuel = length`, which always suffices because every
step consumes at least one character. -/
def subAux (m : Char) (repl : List Char → List Char) : Nat → List Char → List Char
  | _, [] => []
  | 0, cs => cs
  | fuel + 1, c :: cs =>
    if c = m then
      match cs with
      | '(' :: cs2 =>
        match readCapture cs2 with
        | some (cap, rest) => repl cap ++ subAux m repl fuel rest
        | none => c :: subAux m repl fuel cs
      | _ => c :: subAux m repl fuel cs
    else c :: subAux m repl fuel cs

/-- `re.sub(m + "\\(([^)]+)\\)", repl, s)`. -/
def reSub (m : Char) (repl : List Char → List Char) (s : List Char) : List Char :=
  subAux m repl s.length s

/-- `true` iff the list contains the two-character sequence `m(` somewhere —
the necessary prelude of any match of the pattern `m\(([^)]+)\)`. -/
def hasMarkerStart (m : Char) : List Char → Bool
  | c :: d :: cs => (c = m && d = '(') || hasMarkerStart m (d :: cs)
  | _ => false

theorem subAux_nil (m : Char) (repl : List Char → List Char) (fuel : Nat) :
    subAux m repl fuel [] = [] := by
  cases fuel <;> rfl

/-- Unfolding equation for one scan step. -/
theorem subAux_succ_cons (m : Char) (repl : List Char → List Char) (fuel : Nat)
    (c : Char) (cs : List Char) :
    subAux m repl (fuel + 1) (c :: cs) =
      if c = m then
        match cs with
        | '(' :: cs2 =>
          match readCapture cs2 with
          | some (cap, rest) => repl cap ++ subAux m repl fuel rest
          | none => c :: subAux m repl fuel cs
        | _ => c :: subAux m repl fuel cs
      else c :: subAux m repl fuel cs := rfl

/-- Scanning past a character that is not the marker letter. -/
theorem subAux_skip (m : Char) (repl : List Char → List Char) (fuel : Nat)
    (c : Char) (cs : List Char) (hc : c ≠ m) :
    subAux m repl (fuel + 1) (c :: cs) = c :: subAux m repl fuel cs := by
  rw [subAux_succ_cons, if_neg hc]

/-- Scanning past the marker letter when it is not followed by `(`. -/
theorem subAux_no_open (m : Char) (repl : List Char → List Char) (fuel : Nat)
    (cs : List Char) (hcs : ∀ cs2, cs ≠ '(' :: cs2) :
    subAux m repl (fuel + 1) (m :: cs) = m :: subAux m repl fuel cs := by
  rw [subAux_succ_cons, if_pos rfl]
  split
  · next cs2 => exact absurd rfl (hcs cs2)
  · rfl

/-- Unfolding equation for `readCapture`. -/
theorem readCapture_cons (c : Char) (cs : List Char) :
    readCapture (c :: cs) =
      if c = ')' then none
      else
        match cs with
        | ')' :: rest => some ([c], rest)
        | _ => (readCapture cs).map (fun pr => (c :: pr.1, pr.2)) := rfl

/-- `([^)]+)\)` matched against `x ++ ")" ++ rest` captures exactly `x`. -/
theorem readCapture_run (x rest : List Char) (hx : ')' ∉ x) (hne : x ≠ []) :
    readCapture (x ++ ')' :: rest) = some (x, rest) := by
  induction x with
  | nil => exact absurd rfl hne
  | cons c x' ih =>
    have hc : c ≠ ')' := by
      intro hc
      exact hx (by simp [hc])
    have hx' : ')' ∉ x' := fun hm => hx (List.mem_cons_of_mem c hm)
    cases x' with
    | nil => simp [readCapture, hc]
    | cons d x'' =>
      have hd : d ≠ ')' := by
        intro hd
        exact hx' (by simp [hd])
      rw [List.cons_append, readCapture_cons, if_neg hc]
      rw [show ((d :: x'' : List Char) ++ ')' :: rest) = d :: (x'' ++ ')' :: rest) from rfl]
      have ih' : readCapture (d :: (x'' ++ ')' :: rest)) = some (d :: x'', rest) := by
        rw [show (d :: (x'' ++ ')' :: rest)) = ((d :: x'' : List Char) ++ ')' :: rest) from rfl]
        exact ih hx' (by simp)
      split
      · next rest' heq =>
        injection heq with h1 _
        exact absurd h1 hd
      · rw [ih']
        rfl

/-- The substitution fires at a match of the pattern and resumes after it. -/
theorem subAux_hit (m : Char) (repl : List Char → List Char) (fuel : Nat)
    (x rest : List Char) (hx : ')' ∉ x) (hne : x ≠ []) :
    subAux m repl (fuel + 1) (m :: '(' :: (x ++ ')' :: rest)) =
      repl x ++ subAux m repl fuel rest := by
  rw [subAux_succ_cons, if_pos rfl]
  show (match readCapture (x ++ ')' :: rest) with
      | some (cap, r) => repl cap ++ subAux m repl fuel r
      | none => m :: subAux m repl fuel ('(' :: (x ++ ')' :: rest))) =
    repl x ++ subAux m repl fuel rest
  rw [readCapture_run x rest hx hne]

theorem hasMarkerStart_cons (m c : Char) (cs : List Char) (hc : c ≠ m) :
    hasMarkerStart m (c :: cs) = hasMarkerStart m cs := by
  cases cs with
  | nil => rfl
  | cons d cs' => simp [hasMarkerStart, hc]

theorem hasMarkerStart_of_no_paren (m : Char) (cs : List Char) (h : '(' ∉ cs) :
    hasMarkerStart m cs = false := by
  induction cs with
  | nil => rfl
  | cons c cs' ih =>
    cases cs' with
    | nil => rfl
    | cons d cs'' =>
      have hd : d ≠ '(' := by
        intro hd
        exact h (by simp [hd])
      have h' : '(' ∉ d :: cs'' := fun hm => h (List.mem_cons_of_mem c hm)
      simp [hasMarkerStart, hd, ih h']

/-- A pass is the identity on a string with no `m(` occurrence (for any fuel:
running out of fuel also leaves the remainder unchanged). -/
theorem subAux_id (m : Char) (repl : List Char → List Char) (fuel : Nat)
    (cs : List Char) (h : hasMarkerStart m cs = false) :
    subAux m repl fuel cs = cs := by
  induction cs generalizing fuel with
  | nil => exact subAux_nil m repl fuel
  | cons c cs' ih =>
    cases fuel with
    | zero => rfl
    | succ fuel' =>
      by_cases hc : c = m
      · subst hc
        have hcs : ∀ cs2, cs' ≠ '(' :: cs2 := by
          intro cs2 heq
          subst heq
          simp [hasMarkerStart] at h
        have h' : hasMarkerStart c cs' = false := by
          cases cs' with
          | nil => rfl
          | cons d cs'' =>
            have hd : d ≠ '(' := by
              intro hd
              exact (hcs cs'') (by rw [hd])
            simp only [hasMarkerStart, Bool.or_eq_false_iff] at h
            exact h.2
        rw [subAux_no_open c repl fuel' cs' hcs, ih fuel' h']
      · have h' : hasMarkerStart m cs' = false := by
          rwa [hasMarkerStart_cons m c cs' hc] at h
        rw [subAux_skip m repl fuel' c cs' hc, ih fuel' h']

theorem subAux_id_no_paren (m : Char) (repl : List Char → List Char) (fuel : Nat)
    (cs : List Char) (h : '(' ∉ cs) :
    subAux m repl fuel cs = cs :=
  subAux_id m repl fuel cs (hasMarkerStart_of_no_paren m cs h)

theorem reSub_id (m : Char) (repl : List Char → List Char) (s : List Char)
    (h : hasMarkerStart m s = false) : reSub m repl s = s :=
  subAux_id m repl s.length s h

theorem reSub_id_no_paren (m : Char) (repl : List Char → List Char) (s : List Char)
    (h : '(' ∉ s) : reSub m repl s = s :=
  subAux_id_no_paren m repl s.length s h

/-- Main characterisation of a pass: with the marker letter absent from the
prefix, the first match is replaced and the suffix (with no further match
prelude) is kept. -/
theorem subAux_run (m : Char) (repl : List Char → List Char)
    (pre x post : List Char) (hpre : m ∉ pre) (hx : ')' ∉ x) (hne : x ≠ [])
    (hpost : hasMarkerStart m post = false) :
    ∀ fuel, pre.length + 1 ≤ fuel →
      subAux m repl fuel (pre ++ m :: '(' :: (x ++ ')' :: post)) =
        pre ++ repl x ++ post := by
  induction pre with
  | nil =>
    intro fuel hfuel
    cases fuel with
    | zero => omega
    | succ fuel' =>
      rw [List.nil_append, subAux_hit m repl fuel' x post hx hne,
        subAux_id m repl fuel' post hpost]
      simp
  | cons c pre' ih =>
    intro fuel hfuel
    have hc : c ≠ m := by
      intro hc
      exact hpre (by simp [hc])
    have hpre' : m ∉ pre' := fun hm => hpre (List.mem_cons_of_mem c hm)
    cases fuel with
    | zero => omega
    | succ fuel' =>
      rw [List.cons_append, subAux_skip m repl fuel' c _ hc,
        ih hpre' fuel' (by simp at hfuel; omega)]
      simp

theorem reSub_run (m : Char) (repl : List Char → List Char)
    (pre x post : List Char) (hpre : m ∉ pre) (hx : ')' ∉ x) (hne : x ≠ [])
    (hpost : hasMarkerStart m post = false) :
    reSub m repl (pre ++ m :: '(' :: (x ++ ')' :: post)) = pre ++ repl x ++ post := by
  apply subAux_run m repl pre x post hpre hx hne hpost
  simp [List.length_append]

/-! ### The markup translators

The five compiled patterns of the source, with their replacement templates:
`_ITALIC = I\(([^)]+)\)`, `_BOLD = B\(...\)`, `_MODULE = M\(...\)`,
`_URL = U\(...\)`, `_CONST = C\(...\)`. -/

/-- `rst_ify`: the five substitutions of the source, in source order.
Replacements as in the source: italic `*\1*`, bold `**\1**`, module
`` ``\1`` ``, url `\1` (bare capture), constant `` ``\1`` ``. -/
def rst_ify (text : String) : String :=
  let t := reSub 'I' (fun cap => "*".data ++ cap ++ "*".data) text.data
  let t := reSub 'B' (fun cap => "**".data ++ cap ++ "**".data) t
  let t := reSub 'M' (fun cap => "``".data ++ cap ++ "``".data) t
  let t := reSub 'U' (fun cap => cap) t
  let t := reSub 'C' (fun cap => "``".data ++ cap ++ "``".data) t
  String.mk t

/-- One character of `cgi.escape` (Python 2, `quote=False`): `&`, `<` and `>`
are replaced by their entities.  `cgi.escape` performs the three
`str.replace` passes in the order `&`, `<`, `>`; since `&` is replaced first
and the later passes introduce no `<`/`>`, the composition acts
character-wise, which is how we state it. -/
def replaceChar (c : Char) (r : List Char) (s : List Char) : List Char :=
  (s.map (fun d => if d = c then r else [d])).flatten

/-- `cgi.escape(text)`: `&` then `<` then `>`. -/
def cgi_escape (s : List Char) : List Char :=
  replaceChar '>' "&gt;".data
    (replaceChar '<' "&lt;".data
      (replaceChar '&' "&amp;".data s))

/-- `html_ify`: escape first, then the five substitutions of the source, in
source order. -/
def html_ify (text : String) : String :=
  let t := cgi_escape text.data
  let t := reSub 'I' (fun cap => "<em>".data ++ cap ++ "</em>".data) t
  let t := reSub 'B' (fun cap => "<b>".data ++ cap ++ "</b>".data) t
  let t := reSub 'M' (fun cap => "<span class=\x27module\x27>".data ++ cap ++ "</span>".data) t
  let t := reSub 'U' (fun cap => "<a href=\x27".data ++ cap ++ "\x27>".data ++ cap ++ "</a>".data) t
  let t := reSub 'C' (fun cap => "<code>".data ++ cap ++ "</code>".data) t
  String.mk t

/-- Unfolding of `html_ify` for rewriting. -/
theorem html_ify_data (text : String) :
    (html_ify text).data =
      reSub 'C' (fun cap => "<code>".data ++ cap ++ "</code>".data)
        (reSub 'U' (fun cap => "<a href=\x27".data ++ cap ++ "\x27>".data ++ cap ++ "</a>".data)
          (reSub 'M' (fun cap => "<span class=\x27module\x27>".data ++ cap ++ "</span>".data)
            (reSub 'B' (fun cap => "<b>".data ++ cap ++ "</b>".data)
              (reSub 'I' (fun cap => "<em>".data ++ cap ++ "</em>".data)
                (cgi_escape text.data))))) := rfl

/-- The five marker kinds. -/
inductive Marker where
  | I | B | M | U | C
deriving DecidableEq

/-- The literal letter of each marker's pattern. -/
def markerChar : Marker → Char
  | .I => 'I'
  | .B => 'B'
  | .M => 'M'
  | .U => 'U'
  | .C => 'C'

/-- The structured-text (rst) replacement template of each marker. -/
def rstRepl : Marker → List Char → List Char
  | .I, cap => "*".data ++ cap ++ "*".data
  | .B, cap => "**".data ++ cap ++ "**".data
  | .M, cap => "``".data ++ cap ++ "``".data
  | .U, cap => cap
  | .C, cap => "``".data ++ cap ++ "``".data

/-- One rst substitution pass for a marker kind. -/
def applyMarker (mk : Marker) (s : List Char) : List Char :=
  reSub (markerChar mk) (rstRepl mk) s

/-- Apply rst substitution passes in the order given by the list. -/
def applyMarkers (l : List Marker) (s : List Char) : List Char :=
  l.foldl (fun t mk => applyMarker mk t) s

/-- `rst_ify` is the marker passes in the source's order `I, B, M, U, C`. -/
theorem rst_ify_eq_applyMarkers (s : String) :
    rst_ify s = String.mk (applyMarkers [.I, .B, .M, .U, .C] s.data) := rfl

theorem replaceChar_append (c : Char) (r a b : List Char) :
    replaceChar c r (a ++ b) = replaceChar c r a ++ replaceChar c r b := by
  simp [replaceChar]

theorem replaceChar_not_mem (c : Char) (r : List Char) (s : List Char) (h : c ∉ s) :
    replaceChar c r s = s := by
  induction s with
  | nil => rfl
  | cons d s' ih =>
    have hd : d ≠ c := by
      intro hd
      exact h (by simp [hd])
    have h' : c ∉ s' := fun hm => h (List.mem_cons_of_mem d hm)
    simp [replaceChar, hd] at *
    exact ih h'

theorem replaceChar_single (c : Char) (r : List Char) :
    replaceChar c r [c] = r := by
  simp [replaceChar]

theorem markerChar_ne_open_paren (mk : Marker) : markerChar mk ≠ '(' := by
  cases mk <;> decide

theorem markerChar_inj (a b : Marker) (h : markerChar a = markerChar b) : a = b := by
  cases a <;> cases b <;> first | rfl | (exact absurd h (by decide))

theorem rstRepl_no_paren (mk : Marker) (x : List Char) (hp : '(' ∉ x) :
    '(' ∉ rstRepl mk x := by
  cases mk <;> simp [rstRepl] <;> simp_all [List.mem_append]

/-- Every pass leaves a parenthesis-free string unchanged, whatever the order. -/
theorem applyMarkers_id (l : List Marker) (s : List Char) (h : '(' ∉ s) :
    applyMarkers l s = s := by
  induction l with
  | nil => rfl
  | cons mk l' ih =>
    show applyMarkers l' (applyMarker mk s) = s
    rw [show applyMarker mk s = s from reSub_id_no_paren _ _ s h]
    exact ih

/-- A single well-formed marker, capture free of parentheses: every order of
passes that includes the marker's own pass produces exactly its substitution.
This is the positive side of the order-of-substitution claim; the negative
side is witnessed by `U(B)(x)`, where the url pass's bare-text replacement
creates a new bold marker. -/
theorem single_marker_any_order (mk : Marker) (l : List Marker) (x : List Char)
    (hmem : mk ∈ l) (hne : x ≠ []) (hp : '(' ∉ x) (hq : ')' ∉ x) :
    applyMarkers l (markerChar mk :: '(' :: (x ++ [')'])) = rstRepl mk x := by
  induction l with
  | nil => exact absurd hmem (by simp)
  | cons mk' l' ih =>
    show applyMarkers l' (applyMarker mk' (markerChar mk :: '(' :: (x ++ [')']))) = _
    by_cases hmk : mk' = mk
    · subst hmk
      have hhit : applyMarker mk' (markerChar mk' :: '(' :: (x ++ [')'])) = rstRepl mk' x := by
        have := reSub_run (markerChar mk') (rstRepl mk') [] x [] (by simp) hq hne rfl
        simpa using this
      rw [hhit]
      exact applyMarkers_id l' _ (rstRepl_no_paren mk' x hp)
    · have hchar : markerChar mk' ≠ markerChar mk := fun h => hmk (markerChar_inj _ _ h)
      have hskip : applyMarker mk' (markerChar mk :: '(' :: (x ++ [')'])) =
          markerChar mk :: '(' :: (x ++ [')']) := by
        apply reSub_id
        rw [hasMarkerStart_cons _ _ _ (Ne.symm hchar),
          hasMarkerStart_cons _ _ _ (Ne.symm (markerChar_ne_open_paren mk'))]
        apply hasMarkerStart_of_no_paren
        intro hmem'
        rcases List.mem_append.mp hmem' with h1 | h1
        · exact hp h1
        · simp at h1
      rw [hskip]
      exact ih (by rcases List.mem_cons.mp hmem with h | h; exact absurd h.symm hmk; exact h)

/-! ### The module-processing pipeline -/

/-- `os.path.basename`: the part of the path after the last `/`. -/
def basename (p : String) : String :=
  String.mk ((splitOnChar '/' p.data).getLastD [])

/-- The extracted documentation mapping.  Only the field the claims are
about is modelled: `version_added` (`none` models the key being absent).
The remaining fields of the mapping (`options`, `module`, the fields the
script attaches before rendering) pass through lines 225–248 untouched by
any claimed behaviour, so they are not carried here. -/
structure Doc where
  version_added : Option String
deriving DecidableEq

/-- Numeric value of a string of decimal digits, as `int()` would read it. -/
def digitsToNat (l : List Char) : Nat :=
  l.foldl (fun n c => n * 10 + (c.toNat - '0'.toNat)) 0

/-- Exact value of the unsigned decimal literal `a.b` (tokens of decimal
digits, not both empty), as the fraction `(a * 10^len(b) + b) / 10^len(b)`. -/
def pyFloatDigits (a b : List Char) : Option (Nat × Nat) :=
  if a.all Char.isDigit && b.all Char.isDigit && !(a.isEmpty && b.isEmpty) then
    some (digitsToNat a * 10 ^ b.length + digitsToNat b, 10 ^ b.length)
  else none

/-- Python `float(tokens[0] + "." + tokens[1])`, these tokens containing no
`.`.  Returned is the exact rational value of the decimal literal as
(numerator, positive denominator); the rounding of that value to a binary64
double is folded into the comparison `addedFloatLtNotable` below, the only
use the script makes of the value.  An optional sign on the integer token
is accepted, as `float()` accepts it; `none` models `ValueError` (both
tokens empty, or a non-digit).  Forms `float()` also accepts that cannot
arise from version strings — surrounding whitespace, exponents, `inf` and
`nan`, digit-group underscores — are outside the model. -/
def pyFloat (a b : List Char) : Option (Int × Nat) :=
  match a with
  | '-' :: a' => (pyFloatDigits a' b).map (fun f => (-(f.1 : Int), f.2))
  | '+' :: a' => (pyFloatDigits a' b).map (fun f => ((f.1 : Int), f.2))
  | _ => (pyFloatDigits a b).map (fun f => ((f.1 : Int), f.2))

/-- `TO_OLD_TO_BE_NOTABLE = 1.0` (line 43): the notability threshold, an
exactly representable binary64 double, kept as the exact fraction 1/1. -/
def TO_OLD_TO_BE_NOTABLE : Int × Nat := (1, 1)

/-- The comparison `added_float < TO_OLD_TO_BE_NOTABLE` of the source,
decided from the exact decimal value `num/den`: CPython's `float()` is
correctly rounded (IEEE-754 binary64, round to nearest, ties to even); the
doubles immediately below `1.0` are spaced `2^-53` apart, and the halfway
point `1 - 2^-54` ties to the even `1.0`; rounding is monotone (saturating
to `0.0` and `inf` at the extremes, which preserves the verdict against
`1.0`).  Hence `float(s) < 1.0` holds exactly when the exact value of `s`
is below `1 - 2^-54`, i.e. `num * 2^54 < (2^54 - 1) * den`.  The formula is
specific to the threshold value `1.0`. -/
def addedFloatLtNotable (f : Int × Nat) : Bool :=
  decide (f.1 * 2 ^ 54 < (2 ^ 54 * TO_OLD_TO_BE_NOTABLE.1 - 1) * (f.2 : Int))

/-- Result of the `version_added` handling in `process_module`
(lines 225–237). -/
inductive VersionStep where
  /-- the key is deleted from the doc -/
  | removed
  /-- the key is kept, with its original value -/
  | kept (v : String)
  /-- `added_tokens[1]` raises `IndexError` (fewer than two `.`-separated tokens) -/
  | idxErr
  /-- `float(...)` raises `ValueError` -/
  | valErr
deriving DecidableEq

/-- Lines 225–237 of the source:
`added = 0`; `historical` deletes the key (leaving `added` falsy);
otherwise `added` is the value, and when truthy (a nonempty string) the
first two `.`-separated tokens are joined and converted with `float`; a
value below `TO_OLD_TO_BE_NOTABLE` deletes the key.  The guard
`if added and added_float < ...` re-tests the joined string, which always
contains `.` and so is always truthy. -/
def versionStep (v : String) : VersionStep :=
  if v = "historical" then VersionStep.removed
  else if v.data = [] then VersionStep.kept v
  else
    match splitOnChar '.' v.data with
    | t0 :: t1 :: _ =>
      match pyFloat t0 t1 with
      | some f => if addedFloatLtNotable f then VersionStep.removed
                  else VersionStep.kept v
      | none => VersionStep.valErr
    | _ => VersionStep.idxErr

/-- The diagnostic written before `sys.exit(1)` for missing documentation. -/
def missingDocMsg (fname module : String) : String :=
  "*** ERROR: CORE MODULE MISSING DOCUMENTATION: " ++ fname ++ ", " ++ module ++ " ***\n"

/-- The diagnostic written before `sys.exit(1)` for a missing `version_added`. -/
def missingVersionMsg (module : String) : String :=
  "*** ERROR: missing version_added in: " ++ module ++ " ***\n"

/-- Observable result of one `process_module` call. -/
inductive Outcome where
  /-- `sys.exit(code)` after writing `msg` to stderr: the whole run aborts -/
  | exited (code : Nat) (msg : String)
  /-- the function returns the string `"SKIPPED"` -/
  | skipped
  /-- early `return` (value `None`) for a dotted basename: nothing extracted,
  nothing rendered, no error -/
  | noRender
  /-- the doc record, post version handling, is rendered and written -/
  | rendered (d : Doc)
  /-- unhandled `IndexError` from `added_tokens[1]` -/
  | indexError
  /-- unhandled `ValueError` from `float(...)` -/
  | valueError
deriving DecidableEq

/-- `process_module` (lines 199–251).  `doc?` is the structured documentation
block returned by the external extractor `ansible.utils.module_docs.get_docstring`
(`none` models `doc is None`); `bl` is the external registry
`ansible.utils.module_docs.BLACKLIST_MODULES`. -/
def processModule (module fname : String) (doc? : Option Doc) (bl : List String) :
    Outcome :=
  if '.' ∈ (basename fname).data then Outcome.noRender
  else
    match doc? with
    | none =>
      if module ∈ bl then Outcome.skipped
      else Outcome.exited 1 (missingDocMsg fname module)
    | some d =>
      match d.version_added with
      | none => Outcome.exited 1 (missingVersionMsg module)
      | some v =>
        match versionStep v with
        | VersionStep.removed => Outcome.rendered { d with version_added := none }
        | VersionStep.kept v' => Outcome.rendered { d with version_added := some v' }
        | VersionStep.idxErr => Outcome.indexError
        | VersionStep.valErr => Outcome.valueError

/-- The toctree entry `process_category` writes for a non-skipped module. -/
def toctreeLine (module : String) : String :=
  "    " ++ module ++ "_module\n"

/-- An outcome that aborts the whole run (uncaught exit or exception). -/
def isFatal : Outcome → Bool
  | Outcome.exited _ _ => true
  | Outcome.indexError => true
  | Outcome.valueError => true
  | _ => false

/-- The toctree lines `process_category` writes, given each module's outcome:
one line per module whose result is not `"SKIPPED"`, in iteration order,
stopping at the first fatal outcome (which the second component reports).
`process_category` iterates `sorted(module_map.keys())`; the claims hold for
an arbitrary iteration order, which subsumes the sorted one. -/
def categoryLines (f : String → Outcome) : List String → List String × Option Outcome
  | [] => ([], none)
  | m :: ms =>
    match f m with
    | Outcome.skipped => categoryLines f ms
    | Outcome.exited c msg => ([], some (Outcome.exited c msg))
    | Outcome.indexError => ([], some Outcome.indexError)
    | Outcome.valueError => ([], some Outcome.valueError)
    | _ =>
      let r := categoryLines f ms
      (toctreeLine m :: r.1, r.2)

/-! ### Module discovery -/

/-- A directory entry: a plain file, or a directory with named children.
Names within one directory are the path segments; a segment never contains
`/`. -/
inductive FsEntry where
  | file
  | dir (children : List (String × FsEntry))

/-- A name the shell-style pattern `*` does not match. -/
def isHidden (name : String) : Bool :=
  match name.data with
  | [] => false
  | c :: _ => c = '.'

/-- `glob.glob(dir + "/*")`: the children of a directory, except that `*`
does not match a name starting with `.`. -/
def globStar (children : List (String × FsEntry)) : List (String × FsEntry) :=
  children.filter (fun e => !isHidden e.1)

/-- `list_modules` (lines 135–150): for each directory `d` under the root,
every entry `f` of `glob(d + "/*")` is recorded under
`categories[tokens[-2]][tokens[-1]] = f` where `tokens = f.split("/")`.
We return the `(category, module, path)` triples in traversal order; the
script stores them in a dict of dicts. -/
def list_modules (module_dir : String) (root : List (String × FsEntry)) :
    List (String × String × String) :=
  ((globStar root).map (fun de =>
    match de.2 with
    | FsEntry.dir children =>
      (globStar children).map (fun fe =>
        let f := module_dir ++ "/" ++ de.1 ++ "/" ++ fe.1
        let tokens := splitOnChar '/' f.data
        (String.mk (tokens.dropLast.getLastD []), String.mk (tokens.getLastD []), f))
    | FsEntry.file => [])).flatten

/-- From the claim's words, for comparison with `list_modules`: the mapping
containing exactly the second-level entries `root/category/module`. -/
def secondLevelEntries (module_dir : String) (root : List (String × FsEntry)) :
    List (String × String × String) :=
  (root.map (fun de =>
    match de.2 with
    | FsEntry.dir children =>
      children.map (fun fe => (de.1, fe.1, module_dir ++ "/" ++ de.1 ++ "/" ++ fe.1))
    | FsEntry.file => [])).flatten

/-! ### Environment setup and the main pipeline -/

/-- `jinja2_environment` (lines 185–195): only `typ == 'rst'` is implemented;
everything else raises.  On success the per-module output filename pattern is
returned (the template itself is an external file). -/
def jinja2_environment (typ : String) : Except String String :=
  if typ = "rst" then Except.ok "%s_module.rst"
  else Except.error ("unknown module format type: " ++ typ)

/-- The optparse default for `--type` (line 166: `default='latex'`). -/
def DEFAULT_DOC_TYPE : String := "latex"

/-- The stages of `main` the claims depend on: `jinja2_environment` is called
before `list_modules` and before any `process_module` call, so a failure
there means no module is processed.  `work` carries, per module, the name,
path and extracted doc block. -/
def mainRun (typ : String) (work : List (String × String × Option Doc))
    (bl : List String) : Except String (List Outcome) :=
  match jinja2_environment typ with
  | Except.error e => Except.error e
  | Except.ok _ => Except.ok (work.map (fun w => processModule w.1 w.2.1 w.2.2 bl))

/-! ### Supporting lemmas on the category writer and on paths -/

theorem toctreeLine_inj (a b : String) (h : toctreeLine a = toctreeLine b) : a = b := by
  have hd : a.data ++ "_module\n".data = b.data ++ "_module\n".data := by
    have := congrArg String.data h
    simpa [toctreeLine, String.data_append] using this
  have hdata := List.append_cancel_right hd
  cases a; cases b; exact congrArg String.mk (by simpa using hdata)

/-- Every toctree line written comes from a module of the category whose
outcome is not `"SKIPPED"`. -/
theorem categoryLines_mem (f : String → Outcome) (ms : List String) (l : String)
    (h : l ∈ (categoryLines f ms).1) :
    ∃ m ∈ ms, l = toctreeLine m ∧ f m ≠ Outcome.skipped := by
  induction ms with
  | nil => simp [categoryLines] at h
  | cons m ms' ih =>
    rw [categoryLines] at h
    cases ho : f m with
    | exited c msg => rw [ho] at h; simp at h
    | skipped =>
      rw [ho] at h
      rcases ih h with ⟨m', hm', hl, hs⟩
      exact ⟨m', List.mem_cons_of_mem m hm', hl, hs⟩
    | noRender =>
      rw [ho] at h
      rcases List.mem_cons.mp h with hl | hl
      · exact ⟨m, List.mem_cons_self m ms', hl, by simp [ho]⟩
      · rcases ih hl with ⟨m', hm', hl', hs⟩
        exact ⟨m', List.mem_cons_of_mem m hm', hl', hs⟩
    | rendered d =>
      rw [ho] at h
      rcases List.mem_cons.mp h with hl | hl
      · exact ⟨m, List.mem_cons_self m ms', hl, by simp [ho]⟩
      · rcases ih hl with ⟨m', hm', hl', hs⟩
        exact ⟨m', List.mem_cons_of_mem m hm', hl', hs⟩
    | indexError => rw [ho] at h; simp at h
    | valueError => rw [ho] at h; simp at h

/-- A module whose outcome is `"SKIPPED"` never gets a toctree line. -/
theorem categoryLines_skipped_not_mem (f : String → Outcome) (ms : List String)
    (m0 : String) (h0 : f m0 = Outcome.skipped) :
    toctreeLine m0 ∉ (categoryLines f ms).1 := by
  intro hmem
  rcases categoryLines_mem f ms (toctreeLine m0) hmem with ⟨m', _, hl, hs⟩
  exact hs (by rw [← toctreeLine_inj m' m0 hl.symm] at h0; exact h0)

/-- A non-skipped, non-fatal module gets its toctree line whenever no module
of the category is fatal. -/
theorem categoryLines_mem_of (f : String → Outcome) (ms : List String) (m0 : String)
    (hall : ∀ m ∈ ms, isFatal (f m) = false) (hmem : m0 ∈ ms)
    (hns : f m0 ≠ Outcome.skipped) :
    toctreeLine m0 ∈ (categoryLines f ms).1 := by
  induction ms with
  | nil => simp at hmem
  | cons m ms' ih =>
    have hallm : isFatal (f m) = false := hall m (List.mem_cons_self m ms')
    have hall' : ∀ m' ∈ ms', isFatal (f m') = false :=
      fun m' hm' => hall m' (List.mem_cons_of_mem m hm')
    rw [categoryLines]
    cases ho : f m with
    | exited c msg => rw [ho] at hallm; exact absurd hallm (by simp [isFatal])
    | indexError => rw [ho] at hallm; exact absurd hallm (by simp [isFatal])
    | valueError => rw [ho] at hallm; exact absurd hallm (by simp [isFatal])
    | skipped =>
      rcases List.mem_cons.mp hmem with he | he
      · exact absurd (he ▸ ho) hns
      · exact ih hall' he
    | noRender =>
      rcases List.mem_cons.mp hmem with he | he
      · subst he; exact List.mem_cons_self _ _
      · exact List.mem_cons_of_mem _ (ih hall' he)
    | rendered d =>
      rcases List.mem_cons.mp hmem with he | he
      · subst he; exact List.mem_cons_self _ _
      · exact List.mem_cons_of_mem _ (ih hall' he)

/-- The last two `/`-separated tokens of `module_dir/category/module` are the
category and module names, for any `module_dir` and slash-free names. -/
theorem path_tokens (md dn fn : String) (h1 : '/' ∉ dn.data) (h2 : '/' ∉ fn.data) :
    splitOnChar '/' (md ++ "/" ++ dn ++ "/" ++ fn).data =
      splitOnChar '/' md.data ++ [dn.data, fn.data] := by
  have hdata : (md ++ "/" ++ dn ++ "/" ++ fn).data =
      md.data ++ '/' :: (dn.data ++ '/' :: fn.data) := by
    simp [String.data_append]
  rw [hdata, splitOnChar_append, splitOnChar_append,
    splitOnChar_no_sep '/' dn.data h1, splitOnChar_no_sep '/' fn.data h2]
  simp

theorem string_data_ext (a b : String) (h : a.data = b.data) : a = b := by
  cases a; cases b; exact congrArg String.mk (by simpa using h)

/-! ### The claims -/

/-- C1: for a discovered module whose extracted documentation block is absent,
a non-blacklisted module terminates the run with exit code 1 after a stderr
diagnostic naming both the file path and the module; a blacklisted module
yields the `"SKIPPED"` sentinel and gets no toctree entry in its category's
listing file. -/
theorem c1_missing_documentation (module fname : String) (bl : List String)
    (hdot : '.' ∉ (basename fname).data) :
    (module ∉ bl →
      processModule module fname none bl = Outcome.exited 1 (missingDocMsg fname module)
      ∧ List.IsInfix fname.data (missingDocMsg fname module).data
      ∧ List.IsInfix module.data (missingDocMsg fname module).data)
    ∧ (module ∈ bl →
      processModule module fname none bl = Outcome.skipped
      ∧ ∀ (f : String → Outcome) (ms : List String), f module = Outcome.skipped →
          toctreeLine module ∉ (categoryLines f ms).1) := by
  have hc : processModule module fname none bl =
      (if module ∈ bl then Outcome.skipped
       else Outcome.exited 1 (missingDocMsg fname module)) := by
    simp [processModule, hdot]
  constructor
  · intro hbl
    refine ⟨by rw [hc, if_neg hbl], ?_, ?_⟩
    · refine ⟨"*** ERROR: CORE MODULE MISSING DOCUMENTATION: ".data,
        (", " ++ module ++ " ***\n").data, ?_⟩
      simp [missingDocMsg, String.data_append, List.append_assoc]
    · refine ⟨("*** ERROR: CORE MODULE MISSING DOCUMENTATION: " ++ fname ++ ", ").data,
        " ***\n".data, ?_⟩
      simp [missingDocMsg, String.data_append, List.append_assoc]
  · intro hbl
    exact ⟨by rw [hc, if_pos hbl],
      fun f ms h0 => categoryLines_skipped_not_mem f ms module h0⟩

theorem c1_missing_documentation_witness :
    processModule "copy" "lib/files/copy" none [] =
      Outcome.exited 1 (missingDocMsg "lib/files/copy" "copy")
    ∧ processModule "async_status" "lib/internal/async_status" none ["async_status"] =
      Outcome.skipped := by
  have h1 := c1_missing_documentation "copy" "lib/files/copy" [] (by decide)
  have h2 := c1_missing_documentation "async_status" "lib/internal/async_status"
    ["async_status"] (by decide)
  exact ⟨(h1.1 (by decide)).1, (h2.2 (by decide)).1⟩

/-- C3: `historical` deletes the version key; a value whose first two
`.`-separated tokens convert to a double below `TO_OLD_TO_BE_NOTABLE`
deletes the key before rendering (`addedFloatLtNotable` being the binary64
comparison `float(t0 + "." + t1) < 1.0` decided from the exact decimal
value); `"1.0"` is kept, so the record handed to the template still carries
it. -/
theorem c3_version_stripping (d : Doc) (module fname : String) (bl : List String)
    (hdot : '.' ∉ (basename fname).data) :
    versionStep "historical" = VersionStep.removed
    ∧ (∀ (v : String) (t0 t1 : List Char) (rest : List (List Char)) (f : Int × Nat),
        v ≠ "historical" → v.data ≠ [] →
        splitOnChar '.' v.data = t0 :: t1 :: rest → pyFloat t0 t1 = some f →
        (addedFloatLtNotable f = true → versionStep v = VersionStep.removed)
        ∧ (addedFloatLtNotable f = false → versionStep v = VersionStep.kept v))
    ∧ (d.version_added = some "historical" →
        processModule module fname (some d) bl =
          Outcome.rendered { d with version_added := none })
    ∧ (d.version_added = some "0.9" →
        processModule module fname (some d) bl =
          Outcome.rendered { d with version_added := none })
    ∧ (d.version_added = some "1.0" →
        processModule module fname (some d) bl =
          Outcome.rendered { d with version_added := some "1.0" }) := by
  have hstep : ∀ (v : String) (t0 t1 : List Char) (rest : List (List Char)) (f : Int × Nat),
      v ≠ "historical" → v.data ≠ [] →
      splitOnChar '.' v.data = t0 :: t1 :: rest → pyFloat t0 t1 = some f →
      versionStep v = (if addedFloatLtNotable f then VersionStep.removed
        else VersionStep.kept v) := by
    intro v t0 t1 rest f hh he hsplit hfloat
    rw [versionStep, if_neg hh, if_neg he, hsplit]
    show (match pyFloat t0 t1 with
      | some fr => if addedFloatLtNotable fr then VersionStep.removed
                   else VersionStep.kept v
      | none => VersionStep.valErr) = _
    rw [hfloat]
  refine ⟨by decide, ?_, ?_, ?_, ?_⟩
  · intro v t0 t1 rest f hh he hsplit hfloat
    refine ⟨fun hlt => ?_, fun hge => ?_⟩
    · rw [hstep v t0 t1 rest f hh he hsplit hfloat, if_pos hlt]
    · rw [hstep v t0 t1 rest f hh he hsplit hfloat, hge]
      rfl
  · intro hv
    simp only [processModule, if_neg hdot, hv]
    rw [show versionStep "historical" = VersionStep.removed from by decide]
  · intro hv
    simp only [processModule, if_neg hdot, hv]
    rw [show versionStep "0.9" = VersionStep.removed from by decide]
  · intro hv
    simp only [processModule, if_neg hdot, hv]
    rw [show versionStep "1.0" = VersionStep.kept "1.0" from by decide]

theorem c3_version_stripping_witness :
    processModule "mod" "lib/net/mod" (some ⟨some "historical"⟩) [] =
      Outcome.rendered ⟨none⟩
    ∧ processModule "mod" "lib/net/mod" (some ⟨some "0.9"⟩) [] = Outcome.rendered ⟨none⟩
    ∧ processModule "mod" "lib/net/mod" (some ⟨some "1.0"⟩) [] =
      Outcome.rendered ⟨some "1.0"⟩
    ∧ versionStep "0.9" = VersionStep.removed
    ∧ versionStep "0.99999999999999999999" =
        VersionStep.kept "0.99999999999999999999"
    ∧ versionStep "0.99999999999999994" = VersionStep.removed
    ∧ versionStep "-1.5" = VersionStep.removed := by
  have h1 := c3_version_stripping ⟨some "historical"⟩ "mod" "lib/net/mod" [] (by decide)
  have h2 := c3_version_stripping ⟨some "0.9"⟩ "mod" "lib/net/mod" [] (by decide)
  have h3 := c3_version_stripping ⟨some "1.0"⟩ "mod" "lib/net/mod" [] (by decide)
  refine ⟨h1.2.2.1 rfl, h2.2.2.2.1 rfl, h3.2.2.2.2 rfl, ?_, ?_, ?_, ?_⟩
  · exact (h1.2.1 "0.9" "0".data "9".data [] (9, 10) (by decide) (by decide) (by decide)
      (by decide)).1 (by decide)
  · exact (h1.2.1 "0.99999999999999999999" "0".data "99999999999999999999".data []
      (99999999999999999999, 100000000000000000000) (by decide) (by decide) (by decide)
      (by decide)).2 (by decide)
  · exact (h1.2.1 "0.99999999999999994" "0".data "99999999999999994".data []
      (99999999999999994, 100000000000000000) (by decide) (by decide) (by decide)
      (by decide)).1 (by decide)
  · exact (h1.2.1 "-1.5" "-1".data "5".data [] (-15, 10) (by decide) (by decide)
      (by decide) (by decide)).1 (by decide)

/-- C6: a present documentation block with no `version_added` key is always
fatal — exit code 1 with a diagnostic naming the module — and is never
downgraded to the `"SKIPPED"` sentinel, whatever the blacklist. -/
theorem c6_missing_version_fatal (module fname : String) (bl : List String) (d : Doc)
    (hdot : '.' ∉ (basename fname).data) (hv : d.version_added = none) :
    processModule module fname (some d) bl = Outcome.exited 1 (missingVersionMsg module)
    ∧ List.IsInfix module.data (missingVersionMsg module).data
    ∧ ∀ bl2 : List String, processModule module fname (some d) bl2 ≠ Outcome.skipped := by
  have hc : ∀ bl2 : List String, processModule module fname (some d) bl2 =
      Outcome.exited 1 (missingVersionMsg module) := by
    intro bl2
    simp only [processModule, if_neg hdot, hv]
  refine ⟨hc bl, ?_, fun bl2 => by rw [hc bl2]; simp⟩
  refine ⟨"*** ERROR: missing version_added in: ".data, " ***\n".data, ?_⟩
  simp [missingVersionMsg, String.data_append, List.append_assoc]

theorem c6_missing_version_fatal_witness :
    processModule "mod" "lib/net/mod" (some ⟨none⟩) ["mod"] =
      Outcome.exited 1 (missingVersionMsg "mod") :=
  (c6_missing_version_fatal "mod" "lib/net/mod" ["mod"] ⟨none⟩ (by decide) rfl).1

/-- C8: every output type other than `rst` makes `jinja2_environment` raise
`unknown module format type` before any module is processed, and the CLI
default type is `latex`, so a run that does not select `rst` fails at
startup and renders nothing. -/
theorem c8_unknown_format_type (typ : String)
    (work : List (String × String × Option Doc)) (bl : List String)
    (h : typ ≠ "rst") :
    jinja2_environment typ = Except.error ("unknown module format type: " ++ typ)
    ∧ mainRun typ work bl = Except.error ("unknown module format type: " ++ typ)
    ∧ DEFAULT_DOC_TYPE = "latex" ∧ DEFAULT_DOC_TYPE ≠ "rst" := by
  have he : jinja2_environment typ =
      Except.error ("unknown module format type: " ++ typ) := by
    rw [jinja2_environment, if_neg h]
  exact ⟨he, by rw [mainRun, he], rfl, by decide⟩

theorem c8_unknown_format_type_witness :
    mainRun "latex" [("mod", "lib/net/mod", none)] [] =
      Except.error ("unknown module format type: " ++ "latex") :=
  (c8_unknown_format_type "latex" [("mod", "lib/net/mod", none)] [] (by decide)).2.1

/-- C9: a module whose file basename contains `.` returns early — nothing
extracted, nothing rendered, no error — yet since the early return is not
the `"SKIPPED"` sentinel, the category listing still writes its toctree
entry (pointing at a per-module document that was never produced). -/
theorem c9_dotted_basename (module fname : String) (bl : List String)
    (doc? : Option Doc) (hdot : '.' ∈ (basename fname).data) :
    processModule module fname doc? bl = Outcome.noRender
    ∧ ∀ (f : String → Outcome) (ms : List String),
        (∀ m ∈ ms, isFatal (f m) = false) → module ∈ ms →
        f module = Outcome.noRender →
        toctreeLine module ∈ (categoryLines f ms).1 := by
  constructor
  · simp [processModule, hdot]
  · intro f ms hall hmem h0
    exact categoryLines_mem_of f ms module hall hmem (by rw [h0]; simp)

theorem c9_dotted_basename_witness :
    processModule "a.py" "lib/net/a.py" none [] = Outcome.noRender
    ∧ toctreeLine "a.py" ∈
        (categoryLines (fun m => processModule m "lib/net/a.py" none []) ["a.py"]).1 := by
  have h := c9_dotted_basename "a.py" "lib/net/a.py" [] none (by decide)
  exact ⟨h.1, h.2 (fun m => processModule m "lib/net/a.py" none []) ["a.py"]
    (by decide) (by decide) (by decide)⟩

/-- C10: the notability check is partial — a non-historical, truthy version
value with no second `.`-separated token (such as `"2"`) hits an unhandled
`IndexError` at `added_tokens[1]` rather than any diagnostic-and-exit path —
and under the precondition that the split yields at least two tokens the
`IndexError` branch is unreachable. -/
theorem c10_version_token_partial (module fname : String) (bl : List String) (d : Doc)
    (hdot : '.' ∉ (basename fname).data) (hv : d.version_added = some "2") :
    processModule module fname (some d) bl = Outcome.indexError
    ∧ versionStep "2" = VersionStep.idxErr
    ∧ (∀ (c : Nat) (msg : String), Outcome.indexError ≠ Outcome.exited c msg)
    ∧ (∀ (v : String) (t0 t1 : List Char) (rest : List (List Char)),
        splitOnChar '.' v.data = t0 :: t1 :: rest →
        versionStep v ≠ VersionStep.idxErr) := by
  refine ⟨?_, by decide, by intro c msg; simp, ?_⟩
  · simp only [processModule, if_neg hdot, hv]
    rw [show versionStep "2" = VersionStep.idxErr from by decide]
  · intro v t0 t1 rest hsplit
    rw [versionStep]
    split
    · simp
    · split
      · simp
      · rw [hsplit]
        show ¬(match pyFloat t0 t1 with
          | some fr => if addedFloatLtNotable fr then VersionStep.removed
                       else VersionStep.kept v
          | none => VersionStep.valErr) = VersionStep.idxErr
        cases hf : pyFloat t0 t1 with
        | none => simp
        | some fr =>
          show ¬(if addedFloatLtNotable fr then VersionStep.removed
                 else VersionStep.kept v) = VersionStep.idxErr
          split <;> simp

theorem c10_version_token_partial_witness :
    processModule "mod" "lib/net/mod" (some ⟨some "2"⟩) [] = Outcome.indexError
    ∧ versionStep "1.2" ≠ VersionStep.idxErr := by
  have h := c10_version_token_partial "mod" "lib/net/mod" [] ⟨some "2"⟩ (by decide) rfl
  exact ⟨h.1, h.2.2.2 "1.2" "1".data "2".data [] (by decide)⟩

theorem string_ne_empty_data (x : String) (h : x ≠ "") : x.data ≠ [] := by
  intro hd
  apply h
  cases x with
  | mk d => cases hd; rfl

theorem data_mk (l : List Char) : (String.mk l).data = l := rfl

/-- C2 as stated is false for the module marker: `M(foo)` is translated to
the double-backtick rst inline literal, not a single-backtick one (and
likewise `C(foo)`). -/
theorem c2_single_backtick_counterexample :
    rst_ify "M(foo)" = "``foo``" ∧ rst_ify "M(foo)" ≠ "`foo`"
    ∧ rst_ify "C(foo)" = "``foo``" ∧ rst_ify "C(foo)" ≠ "`foo`" := by
  refine ⟨by decide, by decide, by decide, by decide⟩

/-- C2 (amended): for a well-formed marker whose capture `x` is nonempty and
parenthesis-free, the structured-text translator produces exactly
`I(x) ↦ *x*`, `B(x) ↦ **x**`, `M(x) ↦ ` ``x`` `, `U(x) ↦ x` (bare text) and
`C(x) ↦ ` ``x`` ` — the module and constant markers yielding double-backtick
inline literals — the capture being the shortest run up to the first closing
parenthesis. -/
theorem c2_marker_translation (x : String) (hne : x ≠ "") (hp : '(' ∉ x.data)
    (hq : ')' ∉ x.data) :
    rst_ify ("I(" ++ x ++ ")") = "*" ++ x ++ "*"
    ∧ rst_ify ("B(" ++ x ++ ")") = "**" ++ x ++ "**"
    ∧ rst_ify ("M(" ++ x ++ ")") = "``" ++ x ++ "``"
    ∧ rst_ify ("U(" ++ x ++ ")") = x
    ∧ rst_ify ("C(" ++ x ++ ")") = "``" ++ x ++ "``" := by
  have hxd : x.data ≠ [] := string_ne_empty_data x hne
  have key : ∀ mk : Marker,
      applyMarkers [.I, .B, .M, .U, .C] (markerChar mk :: '(' :: (x.data ++ [')'])) =
        rstRepl mk x.data :=
    fun mk => single_marker_any_order mk _ x.data (by cases mk <;> simp) hxd hp hq
  refine ⟨?_, ?_, ?_, ?_, ?_⟩ <;> apply string_data_ext
  · rw [rst_ify_eq_applyMarkers, data_mk,
      show ("I(" ++ x ++ ")").data = 'I' :: '(' :: (x.data ++ [')']) from by cases x; rfl,
      show ("*" ++ x ++ "*").data = rstRepl .I x.data from by cases x; rfl]
    exact key .I
  · rw [rst_ify_eq_applyMarkers, data_mk,
      show ("B(" ++ x ++ ")").data = 'B' :: '(' :: (x.data ++ [')']) from by cases x; rfl,
      show ("**" ++ x ++ "**").data = rstRepl .B x.data from by cases x; rfl]
    exact key .B
  · rw [rst_ify_eq_applyMarkers, data_mk,
      show ("M(" ++ x ++ ")").data = 'M' :: '(' :: (x.data ++ [')']) from by cases x; rfl,
      show ("``" ++ x ++ "``").data = rstRepl .M x.data from by cases x; rfl]
    exact key .M
  · rw [rst_ify_eq_applyMarkers, data_mk,
      show ("U(" ++ x ++ ")").data = 'U' :: '(' :: (x.data ++ [')']) from by cases x; rfl]
    exact key .U
  · rw [rst_ify_eq_applyMarkers, data_mk,
      show ("C(" ++ x ++ ")").data = 'C' :: '(' :: (x.data ++ [')']) from by cases x; rfl,
      show ("``" ++ x ++ "``").data = rstRepl .C x.data from by cases x; rfl]
    exact key .C

theorem c2_marker_translation_witness :
    rst_ify "I(foo)" = "*foo*" ∧ rst_ify "B(foo)" = "**foo**"
    ∧ rst_ify "M(foo)" = "``foo``" ∧ rst_ify "U(foo)" = "foo"
    ∧ rst_ify "C(foo)" = "``foo``" := by
  have h := c2_marker_translation "foo" (by decide) (by decide) (by decide)
  exact ⟨h.1, h.2.1, h.2.2.1, h.2.2.2.1, h.2.2.2.2⟩

/-- C7 as stated is false: on `U(B)(x)` the source's order (url substituted
after bold) leaves `B(x)`, while substituting url before bold produces
`**x**` — the url pass's bare-text replacement creates a new bold marker, so
substitution order across marker kinds is observable. -/
theorem c7_order_counterexample :
    applyMarkers [.I, .B, .M, .U, .C] "U(B)(x)".data = "B(x)".data
    ∧ applyMarkers [.I, .U, .B, .M, .C] "U(B)(x)".data = "**x**".data
    ∧ applyMarkers [.I, .B, .M, .U, .C] "U(B)(x)".data ≠
        applyMarkers [.I, .U, .B, .M, .C] "U(B)(x)".data := by
  refine ⟨by decide, by decide, by decide⟩

/-- C7 (amended): substitution order across marker kinds is immaterial as
long as no replacement creates a new marker occurrence: for a single
well-formed marker with nonempty parenthesis-free capture, every pass order
containing the marker's own pass — in particular every permutation of the
five — yields exactly that marker's substitution.  In general order is
observable (see the `U(B)(x)` counterexample). -/
theorem c7_single_marker_order (mk : Marker) (l : List Marker) (x : List Char)
    (hmem : mk ∈ l) (hne : x ≠ []) (hp : '(' ∉ x) (hq : ')' ∉ x) :
    applyMarkers l (markerChar mk :: '(' :: (x ++ [')'])) = rstRepl mk x :=
  single_marker_any_order mk l x hmem hne hp hq

theorem c7_single_marker_order_witness :
    applyMarkers [.C, .U, .M, .B, .I] ('I' :: '(' :: ("foo".data ++ [')'])) =
      rstRepl .I "foo".data :=
  c7_single_marker_order .I [.C, .U, .M, .B, .I] "foo".data (by decide) (by decide)
    (by decide) (by decide)

theorem replaceChar_cons (c : Char) (r : List Char) (d : Char) (s : List Char) :
    replaceChar c r (d :: s) = (if d = c then r else [d]) ++ replaceChar c r s := by
  simp [replaceChar]

/-- C5: the hypertext translator escapes `<`, `>` and `&` in the whole text
before marker substitution, so literal angle-bracket boundary characters
around a marker come out as entities and the emitted tags nest correctly:
`<I(x)>` becomes `&lt;<em>x</em>&gt;`. -/
theorem c5_escape_before_markers (x : String) (hne : x ≠ "") (hp : '(' ∉ x.data)
    (hq : ')' ∉ x.data) (ha : '&' ∉ x.data) (hl : '<' ∉ x.data) (hg : '>' ∉ x.data) :
    html_ify ("<I(" ++ x ++ ")>") = "&lt;<em>" ++ x ++ "</em>&gt;" := by
  have hxd : x.data ≠ [] := string_ne_empty_data x hne
  have hdata : ("<I(" ++ x ++ ")>").data = '<' :: 'I' :: '(' :: (x.data ++ [')', '>']) := by
    cases x; rfl
  have hamp : '&' ∉ ('<' :: 'I' :: '(' :: (x.data ++ [')', '>'])) := by
    simp [List.mem_append, ha]
  have hltrest : '<' ∉ ('I' :: '(' :: (x.data ++ [')', '>'])) := by
    simp [List.mem_append, hl]
  have hesc : cgi_escape ('<' :: 'I' :: '(' :: (x.data ++ [')', '>'])) =
      "&lt;".data ++ ('I' :: '(' :: (x.data ++ ')' :: "&gt;".data)) := by
    unfold cgi_escape
    rw [replaceChar_not_mem '&' _ _ hamp, replaceChar_cons, if_pos rfl,
      replaceChar_not_mem '<' _ _ hltrest]
    rw [show "&lt;".data ++ ('I' :: '(' :: (x.data ++ [')', '>'])) =
        ("&lt;".data ++ ('I' :: '(' :: (x.data ++ [')']))) ++ ['>'] from by simp]
    rw [replaceChar_append,
      replaceChar_not_mem '>' _ _ (by simp [List.mem_append, hg]),
      replaceChar_single]
    simp
  apply string_data_ext
  rw [html_ify_data, hdata, hesc,
    reSub_run 'I' (fun cap => "<em>".data ++ cap ++ "</em>".data)
      "&lt;".data x.data "&gt;".data (by decide) hq hxd (by decide)]
  have hparen : '(' ∉ ("&lt;".data ++ ("<em>".data ++ x.data ++ "</em>".data)
      ++ "&gt;".data) := by
    simp [List.mem_append, hp]
  rw [reSub_id_no_paren 'B' _ _ hparen, reSub_id_no_paren 'M' _ _ hparen,
    reSub_id_no_paren 'U' _ _ hparen, reSub_id_no_paren 'C' _ _ hparen,
    show ("&lt;<em>" ++ x ++ "</em>&gt;").data =
      "&lt;<em>".data ++ x.data ++ "</em>&gt;".data from by cases x; rfl,
    show "&lt;<em>".data = "&lt;".data ++ "<em>".data from by decide,
    show "</em>&gt;".data = "</em>".data ++ "&gt;".data from by decide]
  simp [List.append_assoc]

theorem c5_escape_before_markers_witness :
    html_ify "<I(x)>" = "&lt;<em>x</em>&gt;" :=
  c5_escape_before_markers "x" (by decide) (by decide) (by decide) (by decide)
    (by decide) (by decide)

/-- No first- or second-level entry name starts with `.` (so the shell-style
listing hides nothing). -/
def rootVisible (root : List (String × FsEntry)) : Bool :=
  root.all (fun de => !isHidden de.1 &&
    match de.2 with
    | FsEntry.dir children => children.all (fun fe => !isHidden fe.1)
    | FsEntry.file => true)

/-- No first- or second-level entry name contains `/` (true of any real
directory tree: names are path segments). -/
def rootSlashFree (root : List (String × FsEntry)) : Bool :=
  root.all (fun de => !(decide ('/' ∈ de.1.data)) &&
    match de.2 with
    | FsEntry.dir children => children.all (fun fe => !(decide ('/' ∈ fe.1.data)))
    | FsEntry.file => true)

/-- The per-entry triple `list_modules` builds from the path, recovered. -/
theorem list_modules_entry (md dn fn : String) (hdn : '/' ∉ dn.data)
    (hfn : '/' ∉ fn.data) :
    (String.mk ((splitOnChar '/' (md ++ "/" ++ dn ++ "/" ++ fn).data).dropLast.getLastD []),
      String.mk ((splitOnChar '/' (md ++ "/" ++ dn ++ "/" ++ fn).data).getLastD []),
      md ++ "/" ++ dn ++ "/" ++ fn) = (dn, fn, md ++ "/" ++ dn ++ "/" ++ fn) := by
  rw [path_tokens md dn fn hdn hfn,
    show splitOnChar '/' md.data ++ [dn.data, fn.data] =
      (splitOnChar '/' md.data ++ [dn.data]) ++ [fn.data] from by simp,
    List.getLastD_concat, List.dropLast_concat, List.getLastD_concat]

/-- C4 as stated is false: `glob("dir/*")` does not match names beginning
with `.`, so a hidden second-level entry is absent from the returned
mapping even though it is a `root/category/module` entry. -/
theorem c4_hidden_entry_counterexample :
    list_modules "lib" [("net", FsEntry.dir [(".hidden", FsEntry.file)])] = []
    ∧ secondLevelEntries "lib" [("net", FsEntry.dir [(".hidden", FsEntry.file)])] =
        [("net", ".hidden", "lib/net/.hidden")] := by
  refine ⟨by decide, by decide⟩

/-- C4 (amended): for a root none of whose first- or second-level entry
names begins with `.` (and whose names, as path segments, contain no `/`),
the discoverer returns exactly the second-level `root/category/module`
entries — entries at the root itself and entries three or more levels deep
are excluded — and an empty root yields an empty mapping without error.
Entries whose name begins with `.` are additionally excluded by the
shell-style listing. -/
theorem c4_second_level_mapping (md : String) (root : List (String × FsEntry))
    (hvis : rootVisible root = true) (hsl : rootSlashFree root = true) :
    list_modules md root = secondLevelEntries md root
    ∧ list_modules md [] = [] := by
  refine ⟨?_, rfl⟩
  revert hvis hsl
  induction root with
  | nil => intro _ _; rfl
  | cons de root' ih =>
    intro hvis hsl
    simp only [rootVisible, List.all_cons, Bool.and_eq_true] at hvis
    simp only [rootSlashFree, List.all_cons, Bool.and_eq_true] at hsl
    obtain ⟨⟨hdevis, hdechild⟩, hvis'⟩ := hvis
    obtain ⟨⟨hdesl, hdeslchild⟩, hsl'⟩ := hsl
    have hde : isHidden de.1 = false := by
      cases h : isHidden de.1
      · rfl
      · rw [h] at hdevis; exact absurd hdevis (by decide)
    have hfilter : globStar (de :: root') = de :: globStar root' := by
      simp [globStar, List.filter_cons, hde]
    show ((globStar (de :: root')).map _).flatten = ((de :: root').map _).flatten
    rw [hfilter]
    simp only [List.map_cons, List.flatten_cons]
    congr 1
    · obtain ⟨dn, e⟩ := de
      cases e with
      | file => rfl
      | dir children =>
        have hchild_vis : ∀ f ∈ children, isHidden f.1 = false := by
          intro f hf
          have := List.all_eq_true.mp hdechild f hf
          cases h : isHidden f.1
          · rfl
          · rw [h] at this; exact absurd this (by decide)
        have hchild_sl : ∀ f ∈ children, '/' ∉ f.1.data := by
          intro f hf
          have := List.all_eq_true.mp hdeslchild f hf
          exact of_decide_eq_false (by
            cases h : decide ('/' ∈ f.1.data)
            · rfl
            · rw [h] at this; exact absurd this (by decide))
        have hdn_sl : '/' ∉ dn.data := by
          exact of_decide_eq_false (by
            cases h : decide ('/' ∈ dn.data)
            · rfl
            · rw [h] at hdesl; exact absurd hdesl (by decide))
        have hgs : globStar children = children := by
          apply List.filter_eq_self.mpr
          intro a ha
          rw [hchild_vis a ha]
          rfl
        show (globStar children).map _ = children.map _
        rw [hgs]
        apply List.map_congr_left
        intro fe hfe
        exact list_modules_entry md dn fe.1 hdn_sl (hchild_sl fe hfe)
    · exact ih hvis' hsl'

theorem c4_second_level_mapping_witness :
    list_modules "lib"
        [("net", FsEntry.dir [("a", FsEntry.file), ("b", FsEntry.file)]),
         ("db", FsEntry.dir [("a", FsEntry.file), ("b", FsEntry.file)]),
         ("README", FsEntry.file)] =
      secondLevelEntries "lib"
        [("net", FsEntry.dir [("a", FsEntry.file), ("b", FsEntry.file)]),
         ("db", FsEntry.dir [("a", FsEntry.file), ("b", FsEntry.file)]),
         ("README", FsEntry.file)]
    ∧ list_modules "lib" [] = [] :=
  c4_second_level_mapping "lib"
    [("net", FsEntry.dir [("a", FsEntry.file), ("b", FsEntry.file)]),
     ("db", FsEntry.dir [("a", FsEntry.file), ("b", FsEntry.file)]),
     ("README", FsEntry.file)] (by decide) (by decide)

end ModuleFormatter
